import Mathlib

/-!
Verification of the lyre media bot's core against its specification.

The Rust source is shallowly embedded: the durable SQLite tables become
Lean lists of row structures, each Diesel query becomes a pure list
operation, and the asynchronous control flow (retry loops, subprocess
supervision, reconciler ticks) becomes explicit state-passing functions.
Machine integers (`i32`, `u64`) are modelled as `Int`/`Nat`; the values
involved stay far from the overflow boundary.
-/

namespace Lyre

/-! ### Queue store — `src/database/models/current_queue.rs`

A row of the `current_queue` table.  The autoincrement `id` and the
DB-defaulted `added_at` timestamp play no role in any claim and are
omitted; every queried/updated column is present. -/

structure QRow where
  guild_id : String
  url : String
  title : Option String
  duration : Option Int
  position : Int
  added_by : String
deriving DecidableEq

/-- Rows of the table belonging to one guild, in table (insertion) order:
the `filter(guild_id.eq(g))` part of every query in `current_queue.rs`. -/
def guildRows (s : List QRow) (g : String) : List QRow :=
  s.filter (fun r => r.guild_id = g)

/-- Model of `CurrentQueue::get_guild_queue`: guild rows ordered ascending by
`position` (`.order(position.asc())`). -/
def get_guild_queue (s : List QRow) (g : String) : List QRow :=
  List.insertionSort (fun a b => a.position ≤ b.position) (guildRows s g)

/-- Model of `CurrentQueue::get_current_track`: first row with `position = 0` for
the guild (`.filter(position.eq(0)).first().optional()`). -/
def get_current_track (s : List QRow) (g : String) : Option QRow :=
  (s.filter (fun r => r.guild_id = g ∧ r.position = 0)).head?

/-- Maximum of a list of positions: the
`.order(position.desc()).first().optional()` query in `add_to_queue`. -/
def maxPosition : List Int → Option Int
  | [] => none
  | x :: xs =>
    match maxPosition xs with
    | none => some x
    | some m => some (max x m)

/-- The `next_position` computation in `CurrentQueue::add_to_queue`:
max existing position for the guild plus one, or `0` if none. -/
def next_position (s : List QRow) (g : String) : Int :=
  match maxPosition ((guildRows s g).map QRow.position) with
  | none => 0
  | some m => m + 1

/-- Model of `CurrentQueue::add_to_queue`: insert a new row for the guild at
`next_position`.  (The source then re-selects and returns the inserted
row; the claims only concern the store.) -/
def add_to_queue (s : List QRow) (g url : String) (title : Option String)
    (duration : Option Int) (added_by : String) : List QRow :=
  s ++ [⟨g, url, title, duration, next_position s g, added_by⟩]

/-- Model of `CurrentQueue::advance_queue`: delete the guild's `position = 0` row,
then decrement `position` of every remaining row of that guild (the
source's second statement filters on the guild only, not on position). -/
def advance_queue (s : List QRow) (g : String) : List QRow :=
  (s.filter (fun r => ¬(r.guild_id = g ∧ r.position = 0))).map
    (fun r => if r.guild_id = g then { r with position := r.position - 1 } else r)

/-- One queue-store operation, as quantified over by the spec's
"any sequence of `addToQueue`/`advanceQueue` calls". -/
inductive QOp where
  | add (g url : String) (title : Option String) (duration : Option Int) (added_by : String)
  | advance (g : String)
deriving DecidableEq

def applyOp (s : List QRow) : QOp → List QRow
  | .add g url t d b => add_to_queue s g url t d b
  | .advance g => advance_queue s g

def applyOps (s : List QRow) (ops : List QOp) : List QRow :=
  ops.foldl applyOp s

/-- The integer list `[0, 1, ..., n-1]`. -/
def rangeInt (n : Nat) : List Int :=
  (List.range n).map Int.ofNat

/-- The spec's queue invariant: the guild's rows, in table order, carry
positions `0, 1, ..., N-1` exactly. -/
def QInv (s : List QRow) (g : String) : Prop :=
  (guildRows s g).map QRow.position = rangeInt (guildRows s g).length

theorem guildRows_append (s t : List QRow) (g : String) :
    guildRows (s ++ t) g = guildRows s g ++ guildRows t g := by
  simp [guildRows, List.filter_append]

theorem rangeInt_succ (n : Nat) :
    rangeInt (n + 1) = rangeInt n ++ [(n : Int)] := by
  simp [rangeInt, List.range_succ]

theorem maxPosition_cons (x : Int) (l : List Int) :
    maxPosition (x :: l) =
      match maxPosition l with
      | none => some x
      | some m => some (max x m) := rfl

theorem maxPosition_append_singleton (l : List Int) (a : Int) :
    maxPosition (l ++ [a]) =
      some (match maxPosition l with | none => a | some m => max m a) := by
  induction l with
  | nil => simp [maxPosition]
  | cons x xs ih =>
    rw [List.cons_append, maxPosition_cons, ih, maxPosition_cons]
    cases h : maxPosition xs with
    | none => simp [h]
    | some m => simp [h, max_assoc]

theorem maxPosition_rangeInt (n : Nat) :
    maxPosition (rangeInt n) = if n = 0 then none else some ((n : Int) - 1) := by
  induction n with
  | zero => simp [rangeInt, maxPosition]
  | succ k ih =>
    rw [rangeInt_succ, maxPosition_append_singleton, ih]
    by_cases hk : k = 0
    · subst hk; simp
    · simp only [if_neg hk, if_neg (Nat.succ_ne_zero k)]
      have h1 : ((k : Int) - 1) ≤ (k : Int) := by omega
      have h2 : ((k : Int) + 1 - 1) = (k : Int) := by omega
      simp [max_eq_right h1, h2]

theorem next_position_of_inv (s : List QRow) (g : String) (h : QInv s g) :
    next_position s g = ((guildRows s g).length : Int) := by
  unfold next_position
  rw [h, maxPosition_rangeInt]
  by_cases hn : (guildRows s g).length = 0
  · simp [hn]
  · simp only [if_neg hn]
    omega

theorem guildRows_add_same (s : List QRow) (g url : String) (t : Option String)
    (d : Option Int) (b : String) :
    guildRows (add_to_queue s g url t d b) g =
      guildRows s g ++ [⟨g, url, t, d, next_position s g, b⟩] := by
  rw [add_to_queue, guildRows_append]
  simp [guildRows]

theorem QInv_add_same (s : List QRow) (g url : String) (t : Option String)
    (d : Option Int) (b : String) (h : QInv s g) :
    QInv (add_to_queue s g url t d b) g := by
  unfold QInv
  rw [guildRows_add_same]
  simp only [List.map_append, List.length_append, List.map_cons, List.map_nil,
    List.length_cons, List.length_nil]
  rw [h, next_position_of_inv s g h, Nat.add_comm 0 1, ← rangeInt_succ]

theorem guildRows_add_other (s : List QRow) (g g' url : String) (t : Option String)
    (d : Option Int) (b : String) (hne : g' ≠ g) :
    guildRows (add_to_queue s g' url t d b) g = guildRows s g := by
  rw [add_to_queue, guildRows_append]
  simp [guildRows, hne]

theorem guildRows_advance (s : List QRow) (g : String) :
    guildRows (advance_queue s g) g =
      ((guildRows s g).filter (fun r => ¬r.position = 0)).map
        (fun r => { r with position := r.position - 1 }) := by
  unfold advance_queue guildRows
  rw [List.filter_map]
  have hguard : ∀ r : QRow,
      (decide (((if r.guild_id = g then { r with position := r.position - 1 } else r) :
        QRow).guild_id = g)) = decide (r.guild_id = g) := by
    intro r
    by_cases hr : r.guild_id = g <;> simp [hr]
  have hcomp :
      (s.filter (fun r => ¬(r.guild_id = g ∧ r.position = 0))).filter
          ((fun r : QRow => decide (r.guild_id = g)) ∘
            (fun r => if r.guild_id = g then { r with position := r.position - 1 } else r)) =
        (s.filter (fun r => ¬(r.guild_id = g ∧ r.position = 0))).filter
          (fun r => r.guild_id = g) := by
    apply List.filter_congr
    intro r _
    exact hguard r
  rw [hcomp, List.filter_filter]
  have hpred :
      s.filter (fun r => decide (r.guild_id = g) && decide (¬(r.guild_id = g ∧ r.position = 0))) =
        (s.filter (fun r => r.guild_id = g)).filter (fun r => ¬r.position = 0) := by
    rw [List.filter_filter]
    apply List.filter_congr
    intro r _
    by_cases h1 : r.guild_id = g <;> by_cases h2 : r.position = 0 <;> simp [h1, h2]
  rw [hpred]
  apply List.map_congr_left
  intro r hr
  have : r.guild_id = g := by
    have := List.of_mem_filter (List.mem_of_mem_filter hr)
    simpa using this
  simp [this]

theorem mem_rangeInt_nonneg (n : Nat) (x : Int) (hx : x ∈ rangeInt n) : 0 ≤ x := by
  simp only [rangeInt, List.mem_map] at hx
  obtain ⟨k, _, rfl⟩ := hx
  exact Int.ofNat_nonneg k

theorem rangeInt_length (n : Nat) : (rangeInt n).length = n := by
  simp [rangeInt]

theorem rangeInt_succ_eq_map (n : Nat) :
    rangeInt (n + 1) = (0 : Int) :: (rangeInt n).map (fun x => x + 1) := by
  unfold rangeInt
  rw [List.range_succ_eq_map, List.map_cons, List.map_map]
  congr 1
  rw [List.map_map]
  apply List.map_congr_left
  intro k _
  simp [Function.comp, Nat.succ_eq_add_one]

theorem rangeInt_shift_down (n : Nat) :
    ((rangeInt (n + 1)).filter (fun x => ¬x = 0)).map (fun x => x - 1) = rangeInt n := by
  rw [rangeInt_succ_eq_map]
  have h1 : ((0 : Int) :: (rangeInt n).map (fun x => x + 1)).filter (fun x => ¬x = 0) =
      (rangeInt n).map (fun x => x + 1) := by
    rw [List.filter_cons]
    simp only [decide_not, decide_eq_true_eq]
    rw [if_neg (by simp)]
    apply List.filter_eq_self.mpr
    intro a ha
    simp only [List.mem_map] at ha
    obtain ⟨x, hx, rfl⟩ := ha
    have := mem_rangeInt_nonneg n x hx
    simp
    omega
  rw [h1, List.map_map]
  have : ((fun x : Int => x - 1) ∘ fun x => x + 1) = id := by
    funext x
    simp
  rw [this, List.map_id]

theorem map_position_filter (l : List QRow) :
    ((l.filter (fun r => ¬r.position = 0)).map (fun r : QRow =>
        ({ r with position := r.position - 1 } : QRow))).map QRow.position =
      ((l.map QRow.position).filter (fun x => ¬x = 0)).map (fun x => x - 1) := by
  rw [List.map_map, List.filter_map]
  have : (l.filter ((fun x : Int => decide (¬x = 0)) ∘ QRow.position)) =
      l.filter (fun r => ¬r.position = 0) := by
    apply List.filter_congr
    intro r _
    rfl
  rw [this, List.map_map]
  rfl

theorem QInv_advance_same (s : List QRow) (g : String) (h : QInv s g) :
    QInv (advance_queue s g) g := by
  have key : (guildRows (advance_queue s g) g).map QRow.position =
      rangeInt ((guildRows s g).length - 1) := by
    rw [guildRows_advance, map_position_filter, h]
    cases hn : (guildRows s g).length with
    | zero => simp [rangeInt]
    | succ k =>
      rw [rangeInt_shift_down]
      simp
  unfold QInv
  rw [key]
  have hlen : (guildRows (advance_queue s g) g).length = (guildRows s g).length - 1 := by
    have h2 := congrArg List.length key
    rw [List.length_map, rangeInt_length] at h2
    exact h2
  rw [hlen]

theorem guildRows_advance_other (s : List QRow) (g g' : String) (hne : g' ≠ g) :
    guildRows (advance_queue s g') g = guildRows s g := by
  unfold advance_queue guildRows
  rw [List.filter_map]
  have hcomp :
      (s.filter (fun r => ¬(r.guild_id = g' ∧ r.position = 0))).filter
          ((fun r : QRow => decide (r.guild_id = g)) ∘
            (fun r => if r.guild_id = g' then { r with position := r.position - 1 } else r)) =
        (s.filter (fun r => ¬(r.guild_id = g' ∧ r.position = 0))).filter
          (fun r => r.guild_id = g) := by
    apply List.filter_congr
    intro r _
    by_cases hr : r.guild_id = g' <;> simp [hr]
  rw [hcomp, List.filter_filter]
  have hpred :
      s.filter (fun r => decide (r.guild_id = g) && decide (¬(r.guild_id = g' ∧ r.position = 0))) =
        s.filter (fun r => r.guild_id = g) := by
    apply List.filter_congr
    intro r _
    by_cases h1 : r.guild_id = g
    · have hg : ¬g = g' := fun hc => hne hc.symm
      simp [h1, hg]
    · simp [h1]
  rw [hpred]
  have : ∀ r ∈ s.filter (fun r => r.guild_id = g),
      (if r.guild_id = g' then ({ r with position := r.position - 1 } : QRow) else r) = r := by
    intro r hr
    have hg : r.guild_id = g := by
      have := List.of_mem_filter hr
      simpa using this
    rw [if_neg]
    rw [hg]
    exact fun hc => hne hc.symm
  simpa using List.map_congr_left this

theorem QInv_applyOp (s : List QRow) (g : String) (op : QOp) (h : QInv s g) :
    QInv (applyOp s op) g := by
  cases op with
  | add g' url t d b =>
    by_cases hg : g' = g
    · subst hg
      exact QInv_add_same s g' url t d b h
    · unfold QInv applyOp
      rw [guildRows_add_other s g g' url t d b hg]
      exact h
  | advance g' =>
    by_cases hg : g' = g
    · subst hg
      exact QInv_advance_same s g' h
    · unfold QInv applyOp
      rw [guildRows_advance_other s g g' hg]
      exact h

theorem QInv_applyOps (s : List QRow) (g : String) (ops : List QOp) (h : QInv s g) :
    QInv (applyOps s ops) g := by
  induction ops generalizing s with
  | nil => exact h
  | cons op rest ih =>
    rw [applyOps, List.foldl_cons]
    exact ih (applyOp s op) (QInv_applyOp s g op h)

theorem sorted_guildRows_of_inv (s : List QRow) (g : String) (h : QInv s g) :
    List.Sorted (fun a b : QRow => a.position ≤ b.position) (guildRows s g) := by
  have hpw : List.Pairwise (fun a b : Int => a < b)
      (rangeInt (guildRows s g).length) := by
    apply List.pairwise_map.mpr
    exact (List.pairwise_lt_range _).imp (fun hab => Int.ofNat_lt.mpr hab)
  rw [← h] at hpw
  have := List.pairwise_map.mp hpw
  exact this.imp (fun hab => le_of_lt hab)

/-- C1: starting from a store with no entries for guild `G`, after any
sequence of `add_to_queue`/`advance_queue` calls, `get_guild_queue G`
returns the guild's entries ordered ascending by position with positions
exactly `0..N-1` — no gaps, no duplicates. -/
theorem C1_queue_positions (ops : List QOp) (s0 : List QRow) (g : String)
    (h0 : guildRows s0 g = []) :
    (get_guild_queue (applyOps s0 ops) g).map QRow.position
      = rangeInt (get_guild_queue (applyOps s0 ops) g).length := by
  have hinv0 : QInv s0 g := by
    unfold QInv
    rw [h0]
    rfl
  have hinv := QInv_applyOps s0 g ops hinv0
  have hsorted := sorted_guildRows_of_inv (applyOps s0 ops) g hinv
  have hq : get_guild_queue (applyOps s0 ops) g = guildRows (applyOps s0 ops) g :=
    List.Sorted.insertionSort_eq hsorted
  rw [hq]
  exact hinv

/-- Witness for C1 at a concrete operation sequence. -/
theorem C1_queue_positions_witness :
    (get_guild_queue (applyOps []
        [QOp.add "g1" "u1" (some "T") (some 180) "user1",
         QOp.add "g1" "u2" none none "user2",
         QOp.advance "g1"]) "g1").map QRow.position
      = rangeInt (get_guild_queue (applyOps []
        [QOp.add "g1" "u1" (some "T") (some 180) "user1",
         QOp.add "g1" "u2" none none "user2",
         QOp.advance "g1"]) "g1").length :=
  C1_queue_positions
    [QOp.add "g1" "u1" (some "T") (some 180) "user1",
     QOp.add "g1" "u2" none none "user2",
     QOp.advance "g1"] [] "g1" rfl

/-! ### Download progress parsing — `parse_percent` and the stderr loop in
`spawn_download_mp3`, `src/audio.rs`.

Lines are modelled as `List Char` (the inputs of interest are ASCII, so
byte indices and char indices coincide).  The `f32` produced by
`num.parse::<f32>()` is modelled exactly: `num` consists only of digits
and dots by construction, so its value is the exact decimal
`i + f / 10^k`, represented as the triple `(i, f, k)`.  (`f32` parsing
rounds very long literals to the nearest float; for the percentage lines
at issue the exact decimal and the float round to the same integer.) -/

/-- The character class of Rust's `c.is_ascii_digit() || c == '.'`. -/
def isDigitDot (c : Char) : Bool := c.isDigit || c == '.'

/-- Value of a digit string, most significant first. -/
def digitsVal : List Char → Nat :=
  List.foldl (fun n c => 10 * n + (c.toNat - '0'.toNat)) 0

/-- Model of `num.parse::<f32>()` on a string of digits and dots: fails on
an empty string, more than one dot, or a lone dot; otherwise the exact
value `intPart + frac / 10^fracLen` as `(intPart, frac, fracLen)`. -/
def parseDecimal (s : List Char) : Option (Nat × Nat × Nat) :=
  if s.all isDigitDot = false then none
  else
    let ip := s.takeWhile (fun c => c != '.')
    let rest := s.dropWhile (fun c => c != '.')
    match rest with
    | [] => if ip.isEmpty then none else some (digitsVal ip, 0, 0)
    | _ :: fp =>
      if fp.contains '.' then none
      else if ip.isEmpty && fp.isEmpty then none
      else some (digitsVal ip, digitsVal fp, fp.length)

/-- Model of `val.round().clamp(0.0, 100.0) as u8` for the exact non-negative value
`i + f / 10^k`: round half away from zero (here: up), clamp above at 100
(the lower clamp at 0 is vacuous for a non-negative value). -/
def roundClampDecimal (d : Nat × Nat × Nat) : Nat :=
  min 100 (d.1 + if 10 ^ d.2.2 ≤ 2 * d.2.1 then 1 else 0)

/-- Index of the LAST element satisfying `p`: Rust's `str::rfind`. -/
def rfindIdx (p : Char → Bool) : List Char → Option Nat
  | [] => none
  | c :: cs =>
    match rfindIdx p cs with
    | some j => some (j + 1)
    | none => if p c then some 0 else none

/-- Model of `parse_percent` from `src/audio.rs`: find the first `'%'`; in the text
before it, `rfind` the last character that is not a digit or dot; parse
the slice strictly after that character as a float; round and clamp. -/
def parse_percent (line : List Char) : Option Nat :=
  match line.findIdx? (fun c => c == '%') with
  | none => none
  | some idx =>
    let before := line.take idx
    match rfindIdx (fun c => !isDigitDot c) before with
    | none => none
    | some j =>
      match parseDecimal (before.drop (j + 1)) with
      | none => none
      | some d => some (roundClampDecimal d)

/-- One iteration of the stderr loop in `spawn_download_mp3`: state is
`(last_sent, forwarded so far)`; a parsed percent is forwarded only when
it differs from `last_sent`. -/
def forwardStep (st : Nat × List Nat) (line : List Char) : Nat × List Nat :=
  match parse_percent line with
  | some pct => if pct ≠ st.1 then (pct, st.2 ++ [pct]) else st
  | none => st

/-- The whole stderr loop: `last_sent` starts at the impossible sentinel
`255u8`; returns the forwarded progress values in order. -/
def forwardedEvents (lines : List (List Char)) : List Nat :=
  (lines.foldl forwardStep (255, [])).2

/-- The four diagnostic lines of the spec's progress-parsing example. -/
def demoLines : List (List Char) :=
  ["[download]  0.0%".toList, "[download]  0.0%".toList,
   "[download] 42.3%".toList, "[download] 100%".toList]

/-- Invariant of the forwarding loop: no two consecutive forwarded values
are equal, and the last forwarded value (if any) is `last_sent`. -/
def dedupInv (st : Nat × List Nat) : Prop :=
  List.Chain' (fun a b => a ≠ b) st.2 ∧ ∀ x, st.2.getLast? = some x → x = st.1

theorem forwardStep_dedupInv (st : Nat × List Nat) (line : List Char)
    (h : dedupInv st) : dedupInv (forwardStep st line) := by
  obtain ⟨hch, hlast⟩ := h
  unfold forwardStep
  cases hp : parse_percent line with
  | none => exact ⟨hch, hlast⟩
  | some pct =>
    show dedupInv (if pct ≠ st.1 then (pct, st.2 ++ [pct]) else st)
    by_cases hne : pct ≠ st.1
    · rw [if_pos hne]
      refine ⟨?_, ?_⟩
      · rw [List.chain'_append]
        refine ⟨hch, List.chain'_singleton pct, ?_⟩
        intro x hx y hy
        simp only [List.head?_cons, Option.mem_def, Option.some.injEq] at hy
        subst hy
        rw [hlast x hx]
        exact fun hc => hne hc.symm
      · intro x hx
        rw [List.getLast?_concat] at hx
        exact (Option.some.inj hx).symm
    · rw [if_neg hne]
      exact ⟨hch, hlast⟩

theorem foldl_dedupInv (lines : List (List Char)) (st : Nat × List Nat)
    (h : dedupInv st) : dedupInv (lines.foldl forwardStep st) := by
  induction lines generalizing st with
  | nil => exact h
  | cons l rest ih => exact ih _ (forwardStep_dedupInv st l h)

theorem chain_forwardedEvents (lines : List (List Char)) :
    List.Chain' (fun a b => a ≠ b) (forwardedEvents lines) :=
  (foldl_dedupInv lines (255, []) ⟨List.chain'_nil, by simp⟩).1

/-- C2 counterexample: on the four example lines the loop forwards three
events (`0`, `42`, `100`), not two — neither the event count nor the
count of distinct forwarded values is 2. -/
theorem C2_counterexample :
    (forwardedEvents demoLines).length ≠ 2 ∧
    (forwardedEvents demoLines).dedup.length ≠ 2 := by
  decide

/-- C2 (amended): on the four example lines exactly three progress events
are forwarded — `0`, then `42` (since `42.3` rounds to `42`), then `100`
— and, on any line sequence, a value equal to the last forwarded value is
never forwarded again. -/
theorem C2_progress_events :
    forwardedEvents demoLines = [0, 42, 100] ∧
    ∀ lines : List (List Char),
      List.Chain' (fun a b => a ≠ b) (forwardedEvents lines) :=
  ⟨by decide, chain_forwardedEvents⟩

/-- Modelled from the spec: "the substring immediately preceding it
(restricted to digits and a decimal point)" — the longest suffix of the
text before the `'%'` consisting only of digits and dots. -/
def digitDotSuffix : List Char → List Char
  | [] => []
  | c :: cs => if (c :: cs).all isDigitDot then c :: cs else digitDotSuffix cs

/-- Modelled from the spec: C5's claimed condition, word for word — a line
yields a progress update iff it contains `'%'` and the digit/dot
substring immediately preceding it parses as a float; the value is that
float rounded and clamped. -/
def specClaimUpdate (line : List Char) : Option Nat :=
  match line.findIdx? (fun c => c == '%') with
  | none => none
  | some idx =>
    match parseDecimal (digitDotSuffix (line.take idx)) with
    | none => none
    | some d => some (roundClampDecimal d)

/-- Modelled from the spec, amended: additionally require at least one
non-digit/dot character before the `'%'` (the delimiter `rfind` needs). -/
def specAmendedUpdate (line : List Char) : Option Nat :=
  match line.findIdx? (fun c => c == '%') with
  | none => none
  | some idx =>
    if (line.take idx).all isDigitDot then none
    else
      match parseDecimal (digitDotSuffix (line.take idx)) with
      | none => none
      | some d => some (roundClampDecimal d)

theorem digitDotSuffix_of_all (l : List Char) (h : l.all isDigitDot = true) :
    digitDotSuffix l = l := by
  cases l with
  | nil => rfl
  | cons c cs => rw [digitDotSuffix, if_pos h]

theorem rfindIdx_none_iff (l : List Char) :
    rfindIdx (fun c => !isDigitDot c) l = none ↔ l.all isDigitDot = true := by
  induction l with
  | nil => simp [rfindIdx]
  | cons c cs ih =>
    rw [rfindIdx, List.all_cons]
    cases h : rfindIdx (fun c => !isDigitDot c) cs with
    | some j =>
      simp only [h]
      constructor
      · intro hc
        exact absurd hc (by simp)
      · intro hc
        have := ih.mpr (by
          rcases Bool.and_eq_true_iff.mp hc with ⟨_, h2⟩
          exact h2)
        rw [h] at this
        exact absurd this (by simp)
    | none =>
      have hcs := ih.mp h
      simp only [h, hcs, Bool.and_true]
      by_cases hc : isDigitDot c
      · simp [hc]
      · simp [hc]

theorem rfindIdx_drop (l : List Char) (j : Nat)
    (h : rfindIdx (fun c => !isDigitDot c) l = some j) :
    l.drop (j + 1) = digitDotSuffix l := by
  induction l generalizing j with
  | nil => exact absurd h (by simp [rfindIdx])
  | cons c cs ih =>
    rw [rfindIdx] at h
    cases hc : rfindIdx (fun c => !isDigitDot c) cs with
    | some j' =>
      rw [hc] at h
      have hj : j = j' + 1 := (Option.some.inj h).symm
      subst hj
      rw [List.drop_succ_cons]
      rw [ih j' hc]
      have hall : ¬((c :: cs).all isDigitDot = true) := by
        rw [List.all_cons]
        intro hca
        rcases Bool.and_eq_true_iff.mp hca with ⟨_, h2⟩
        have := (rfindIdx_none_iff cs).mpr h2
        rw [hc] at this
        exact absurd this (by simp)
      rw [digitDotSuffix, if_neg hall]
    | none =>
      rw [hc] at h
      have hcs := (rfindIdx_none_iff cs).mp hc
      by_cases hp : isDigitDot c
      · rw [if_neg (by simp [hp])] at h
        exact absurd h (by simp)
      · rw [if_pos (by simp [hp])] at h
        have hj : j = 0 := (Option.some.inj h).symm
        subst hj
        rw [List.drop_succ_cons, List.drop_zero]
        have hall : ¬((c :: cs).all isDigitDot = true) := by
          rw [List.all_cons]
          simp [hp]
        rw [digitDotSuffix, if_neg hall, digitDotSuffix_of_all cs hcs]

/-- C5 counterexample: the line `"100%"` contains `'%'` and the preceding
digit substring parses as the float `100`, so the claim says it yields an
update of `100`; but `parse_percent` yields none (its `rfind` for a
non-digit/dot delimiter fails because every preceding character is a
digit). -/
theorem C5_counterexample :
    parse_percent "100%".toList = none ∧
    specClaimUpdate "100%".toList = some 100 := by
  decide

/-- C5 (amended): a line yields a progress update iff it contains `'%'`,
at least one character before the first `'%'` is neither a digit nor a
dot, and the longest digit/dot suffix before the `'%'` parses as a float;
the forwarded value is that float rounded and then clamped to `[0,100]`.
Stated as: `parse_percent` equals the amended-spec function on every
line. -/
theorem C5_parse_iff (line : List Char) :
    parse_percent line = specAmendedUpdate line := by
  unfold parse_percent specAmendedUpdate
  cases hidx : line.findIdx? (fun c => c == '%') with
  | none => rfl
  | some idx =>
    change (match rfindIdx (fun c => !isDigitDot c) (line.take idx) with
      | none => none
      | some j =>
        match parseDecimal ((line.take idx).drop (j + 1)) with
        | none => none
        | some d => some (roundClampDecimal d)) =
      (if (line.take idx).all isDigitDot then none
       else
        match parseDecimal (digitDotSuffix (line.take idx)) with
        | none => none
        | some d => some (roundClampDecimal d))
    cases hr : rfindIdx (fun c => !isDigitDot c) (line.take idx) with
    | none =>
      have hall := (rfindIdx_none_iff (line.take idx)).mp hr
      rw [if_pos hall]
    | some j =>
      have hall : ¬((line.take idx).all isDigitDot = true) := by
        intro hca
        have := (rfindIdx_none_iff (line.take idx)).mpr hca
        rw [hr] at this
        exact absurd this (by simp)
      rw [if_neg hall]
      change (match parseDecimal ((line.take idx).drop (j + 1)) with
        | none => none
        | some d => some (roundClampDecimal d)) = _
      rw [rfindIdx_drop (line.take idx) j hr]

/-- Witness for C5's amended theorem at a concrete line. -/
theorem C5_parse_iff_witness :
    parse_percent "[download] 42.3%".toList
      = specAmendedUpdate "[download] 42.3%".toList :=
  C5_parse_iff "[download] 42.3%".toList

/-! ### Download job supervisor — `spawn_download_mp3`, `src/audio.rs`.

The job's interactions with the environment (the id extraction result,
filesystem probes, the subprocess's stderr/exit/output, rename/copy
success) are the fields of `DlWorld`; the job body is the deterministic
function `spawn_download_mp3` of that world, returning the forwarded
progress events, the job result, whether a subprocess was spawned, and
whether the job created the cache-target file. -/

structure DlWorld where
  idResult : Option String
  tsNanos : Nat
  cacheRoot : String
  cacheHas : String → Bool
  stderrLines : List (List Char)
  exitOk : Bool
  newestMp3 : Option String
  renameOk : Bool
  copyOk : Bool

inductive DlErr where
  | downloadFailed
  | noMp3Produced
deriving DecidableEq

structure DlOutcome where
  events : List Nat
  result : Except DlErr String
  subprocessSpawned : Bool
  cacheCreated : Bool

/-- The content id: `ytdlp_extract_id`'s output, or the timestamp fallback
`"ts-{nanos}"` on extraction failure. -/
def contentId (w : DlWorld) : String :=
  match w.idResult with
  | some v => v
  | none => "ts-" ++ toString w.tsNanos

/-- The cache-target path `{cacheRoot}/{contentId}.mp3`. -/
def cachedPath (w : DlWorld) : String :=
  w.cacheRoot ++ "/" ++ contentId w ++ ".mp3"

/-- Model of `spawn_download_mp3`'s job body.  Cache hit: emit a single `100` event
and resolve to the cached path with no subprocess.  Cache miss: spawn the
extractor, forward progress from its stderr, fail on non-zero exit
(`downloadFailed`) or on no produced `.mp3` (`noMp3Produced`); otherwise
finalize by rename (the source first re-probes the cache path for a
concurrent-writer race; in this single-job world that probe repeats the
cache-miss answer), falling back to copy, falling back to returning the
file at its working-directory location without populating the cache. -/
def spawn_download_mp3 (w : DlWorld) : DlOutcome :=
  let vid := contentId w
  if w.cacheHas vid then
    { events := [100], result := .ok (cachedPath w),
      subprocessSpawned := false, cacheCreated := false }
  else
    let events := forwardedEvents w.stderrLines
    if w.exitOk = false then
      { events := events, result := .error .downloadFailed,
        subprocessSpawned := true, cacheCreated := false }
    else
      match w.newestMp3 with
      | none =>
        { events := events, result := .error .noMp3Produced,
          subprocessSpawned := true, cacheCreated := false }
      | some p =>
        if w.renameOk then
          { events := events, result := .ok (cachedPath w),
            subprocessSpawned := true, cacheCreated := true }
        else if w.copyOk then
          { events := events, result := .ok (cachedPath w),
            subprocessSpawned := true, cacheCreated := true }
        else
          { events := events, result := .ok p,
            subprocessSpawned := true, cacheCreated := false }

/-- C6: whenever the job fails — subprocess non-zero exit
(`downloadFailed`) or no `.mp3` produced (`noMp3Produced`) — the
cache-target path is not created by that job. -/
theorem C6_no_cache_on_failure (w : DlWorld) (e : DlErr)
    (h : (spawn_download_mp3 w).result = .error e) :
    (spawn_download_mp3 w).cacheCreated = false := by
  unfold spawn_download_mp3 at h ⊢
  by_cases hc : w.cacheHas (contentId w)
  · simp [hc] at h
  · by_cases he : w.exitOk = false
    · simp [hc, he]
    · cases hm : w.newestMp3 with
      | none => simp [hc, he, hm]
      | some p =>
        by_cases hr : w.renameOk
        · simp [hc, he, hm, hr] at h
        · by_cases hcp : w.copyOk
          · simp [hc, he, hm, hr, hcp] at h
          · simp [hc, he, hm, hr, hcp] at h

/-- Witness for C6: a world whose subprocess exits non-zero. -/
theorem C6_no_cache_on_failure_witness :
    (spawn_download_mp3
      { idResult := some "vid", tsNanos := 0, cacheRoot := "cache",
        cacheHas := fun _ => false, stderrLines := [], exitOk := false,
        newestMp3 := none, renameOk := false, copyOk := false }).cacheCreated = false :=
  C6_no_cache_on_failure
    { idResult := some "vid", tsNanos := 0, cacheRoot := "cache",
      cacheHas := fun _ => false, stderrLines := [], exitOk := false,
      newestMp3 := none, renameOk := false, copyOk := false }
    DlErr.downloadFailed rfl

/-- C7: if the cache file for the resolved content id already exists, the
job emits exactly one progress event at 100, resolves to the cached path,
spawns no subprocess, and creates nothing. -/
theorem C7_cache_hit (w : DlWorld) (h : w.cacheHas (contentId w) = true) :
    spawn_download_mp3 w =
      { events := [100], result := .ok (cachedPath w),
        subprocessSpawned := false, cacheCreated := false } := by
  unfold spawn_download_mp3
  simp only [h, if_true]

/-- Witness for C7: a world whose cache already holds the id. -/
theorem C7_cache_hit_witness :
    spawn_download_mp3
      { idResult := some "vid", tsNanos := 0, cacheRoot := "cache",
        cacheHas := fun _ => true, stderrLines := [], exitOk := true,
        newestMp3 := none, renameOk := false, copyOk := false } =
      { events := [100],
        result := .ok (cachedPath
          { idResult := some "vid", tsNanos := 0, cacheRoot := "cache",
            cacheHas := fun _ => true, stderrLines := [], exitOk := true,
            newestMp3 := none, renameOk := false, copyOk := false }),
        subprocessSpawned := false, cacheCreated := false } :=
  C7_cache_hit
    { idResult := some "vid", tsNanos := 0, cacheRoot := "cache",
      cacheHas := fun _ => true, stderrLines := [], exitOk := true,
      newestMp3 := none, renameOk := false, copyOk := false } rfl

/-! ### Voice connection records — `src/database/models/voice_connections.rs`.

Timestamps (`NaiveDateTime`) are modelled as `Int` seconds since the
epoch.  The table is a list of records; `guild_id` is its unique key in
the schema, but no proof below assumes uniqueness unless stated. -/

structure VoiceRec where
  guild_id : String
  connected_at : Int
  channel_id : Option String
  last_activity : Int
  current_track_title : Option String
  is_playing : Bool
deriving DecidableEq

/-- Model of `VoiceConnection::find_by_guild_id`: first row with the guild id. -/
def find_by_guild_id (s : List VoiceRec) (g : String) : Option VoiceRec :=
  (s.filter (fun r => r.guild_id = g)).head?

/-- Model of `VoiceConnection::create`: inserts `NewVoiceConnection {guild_id,
channel_id}`; the remaining columns come from schema defaults (migrations
are not part of the source tree: both timestamps default to the current
time, `is_playing` to false, the title to null). -/
def VoiceConnection.create (s : List VoiceRec) (g : String) (c : Option String)
    (now : Int) : List VoiceRec :=
  s ++ [{ guild_id := g, connected_at := now, channel_id := c,
          last_activity := now, current_track_title := none, is_playing := false }]

/-- Model of `VoiceConnection::create_or_update`: if a record for the guild exists,
set only `channel_id` and `last_activity` on every row of that guild;
otherwise insert a fresh record. -/
def create_or_update (s : List VoiceRec) (g : String) (c : Option String)
    (now : Int) : List VoiceRec :=
  match find_by_guild_id s g with
  | some _ =>
    s.map (fun r => if r.guild_id = g
      then { r with channel_id := c, last_activity := now } else r)
  | none => VoiceConnection.create s g c now

/-- Model of `VoiceConnection::delete`: remove the guild's rows. -/
def VoiceConnection.delete (s : List VoiceRec) (g : String) : List VoiceRec :=
  s.filter (fun r => ¬r.guild_id = g)

/-- Model of `VoiceConnection::update_playing_status`: set `is_playing`,
`current_track_title` and `last_activity` on the guild's rows. -/
def update_playing_status (s : List VoiceRec) (g : String) (p : Bool)
    (t : Option String) (now : Int) : List VoiceRec :=
  s.map (fun r => if r.guild_id = g
    then { r with is_playing := p, current_track_title := t, last_activity := now }
    else r)

/-- C10: updating an existing record touches only `channel_id` and
`last_activity`; `connected_at`, `is_playing` and `current_track_title`
are unchanged on every row of the guild (so a repeated join desire never
resets the staleness clock). -/
theorem C10_update_frame (s : List VoiceRec) (g : String) (c : Option String)
    (now : Int) (r0 : VoiceRec) (hex : find_by_guild_id s g = some r0) :
    ∀ r ∈ s, ∃ r' ∈ create_or_update s g c now,
      r'.connected_at = r.connected_at ∧
      r'.is_playing = r.is_playing ∧
      r'.current_track_title = r.current_track_title ∧
      (r.guild_id = g → r'.channel_id = c ∧ r'.last_activity = now) ∧
      (¬r.guild_id = g → r' = r) := by
  intro r hr
  refine ⟨if r.guild_id = g then { r with channel_id := c, last_activity := now } else r,
    ?_, ?_⟩
  · unfold create_or_update
    rw [hex]
    exact List.mem_map_of_mem _ hr
  · by_cases hg : r.guild_id = g
    · simp [hg]
    · simp [hg]

/-- Witness for C10 on a one-record store, instantiated at that record. -/
theorem C10_update_frame_witness :
    ∃ r' ∈ create_or_update
        [({ guild_id := "g", connected_at := 5, channel_id := none,
            last_activity := 6, current_track_title := some "t",
            is_playing := true } : VoiceRec)] "g" (some "c") 99,
      r'.connected_at = (5 : Int) ∧
      r'.is_playing = true ∧
      r'.current_track_title = some "t" ∧
      ("g" = "g" → r'.channel_id = some "c" ∧ r'.last_activity = 99) ∧
      (¬"g" = "g" →
        r' = ({ guild_id := "g", connected_at := 5, channel_id := none,
                last_activity := 6, current_track_title := some "t",
                is_playing := true } : VoiceRec)) :=
  C10_update_frame
    [({ guild_id := "g", connected_at := 5, channel_id := none,
        last_activity := 6, current_track_title := some "t",
        is_playing := true } : VoiceRec)] "g" (some "c") 99
    { guild_id := "g", connected_at := 5, channel_id := none,
      last_activity := 6, current_track_title := some "t", is_playing := true }
    rfl
    { guild_id := "g", connected_at := 5, channel_id := none,
      last_activity := 6, current_track_title := some "t", is_playing := true }
    (List.mem_singleton.mpr rfl)

/-! ### Voice manager — `src/voice_manager.rs`.

`join_voice_channel` and the per-record body of the
`process_voice_requests` reconciler loop.  The environment is explicit:
`live` is the `songbird` manager's state for the guild (`none` = no call;
`some cur` = a call whose `current_channel()` is `cur`), `succ a` is
whether the `a`-th `manager.join` attempt succeeds, `now` is the clock. -/

/-- Rust `str::parse::<u64>()`: optional `'+'` sign, then one or more
digits, value below `2^64`. -/
def parseU64Chars (l : List Char) : Option Nat :=
  let digits := match l with
    | '+' :: rest => rest
    | _ => l
  if digits.isEmpty then none
  else if digits.all Char.isDigit then
    if digitsVal digits < 2 ^ 64 then some (digitsVal digits) else none
  else none

def parse_u64 (s : String) : Option Nat := parseU64Chars s.toList

/-- The `already_connected` check in `process_voice_requests`: true iff a
live call exists and its current channel equals the target. -/
def alreadyConnectedTo (live : Option (Option Nat)) (cid : Nat) : Bool :=
  match live with
  | some (some cur) => cur == cid
  | some none => false
  | none => false

inductive TickAction where
  | skipNoChannel
  | skipBadGuildId
  | skipBadChannelId
  | skipConnected
  | skipStale
  | attemptJoin
deriving DecidableEq

/-- The per-record decision of one reconciler tick
(`process_voice_requests`): records without `channel_id` are not
iterated; unparsable ids are skipped; a record already satisfied by the
live call is skipped; a record whose age in whole minutes
(`num_minutes`, which truncates) exceeds 5 is skipped as stale; the rest
are passed to `join_voice_channel`. -/
def tick_action (rec : VoiceRec) (live : Option (Option Nat)) (now : Int) :
    TickAction :=
  match rec.channel_id with
  | none => .skipNoChannel
  | some cidStr =>
    match parse_u64 rec.guild_id with
    | none => .skipBadGuildId
    | some _ =>
      match parse_u64 cidStr with
      | none => .skipBadChannelId
      | some cid =>
        if alreadyConnectedTo live cid then .skipConnected
        else if (now - rec.connected_at).tdiv 60 > 5 then .skipStale
        else .attemptJoin

/-- Model of `join_voice_channel`'s retry loop.  `attempts` is the failure counter,
`fuel` the remaining loop iterations (the Rust `loop` exits within
`max_attempts = 5` iterations, so fuel 5 makes the fuel-0 arm
unreachable).  Returns (success, attempts made, sleeps in ms, store):
on success the database is updated via `create_or_update`; between failed
attempts the loop sleeps `min(5000, 1000 * 2^(attempts-1))` ms. -/
def joinGo (succ : Nat → Bool) (store : List VoiceRec) (g c : String) (now : Int) :
    Nat → Nat → Bool × Nat × List Nat × List VoiceRec
  | attempts, 0 => (false, attempts, [], store)
  | attempts, fuel + 1 =>
    if succ (attempts + 1) then
      (true, attempts + 1, [], create_or_update store g (some c) now)
    else if attempts + 1 ≥ 5 then
      (false, attempts + 1, [], store)
    else
      let d := min 5000 (1000 * 2 ^ (attempts + 1 - 1))
      let r := joinGo succ store g c now (attempts + 1) fuel
      (r.1, r.2.1, d :: r.2.2.1, r.2.2.2)

/-- Model of `join_voice_channel`: if the manager already has a call for the guild,
return success immediately without touching the store; otherwise run the
retry loop. -/
def join_voice_channel (live : Bool) (succ : Nat → Bool) (store : List VoiceRec)
    (g c : String) (now : Int) : Bool × Nat × List Nat × List VoiceRec :=
  if live then (true, 0, [], store) else joinGo succ store g c now 0 5

theorem joinGo_all_fail (succ : Nat → Bool) (store : List VoiceRec)
    (g c : String) (now : Int) (hfail : ∀ a, succ a = false) :
    joinGo succ store g c now 0 5 = (false, 5, [1000, 2000, 4000, 5000], store) := by
  simp [joinGo, hfail]

/-- C4: with no live session and every attempt failing,
`join_voice_channel` makes exactly 5 attempts with inter-attempt sleeps
of 1000, 2000, 4000, 5000 ms, returns failure, and leaves the store
unchanged (no sixth attempt: the attempt count is 5). -/
theorem C4_join_retry (succ : Nat → Bool) (store : List VoiceRec) (g c : String)
    (now : Int) (hfail : ∀ a, succ a = false) :
    join_voice_channel false succ store g c now
      = (false, 5, [1000, 2000, 4000, 5000], store) := by
  unfold join_voice_channel
  rw [if_neg (by simp)]
  exact joinGo_all_fail succ store g c now hfail

/-- Witness for C4. -/
theorem C4_join_retry_witness :
    join_voice_channel false (fun _ => false) [] "g" "c" 0
      = (false, 5, [1000, 2000, 4000, 5000], []) :=
  C4_join_retry (fun _ => false) [] "g" "c" 0 (fun _ => rfl)

/-- C3 counterexample: a record with a set channel, aged 330 s — strictly
more than 5 minutes — is still passed to `join_voice_channel`, because
`num_minutes()` truncates 330 s to 5 minutes and the skip test is
`> 5`. -/
theorem C3_counterexample :
    tick_action
      { guild_id := "1", connected_at := 0, channel_id := some "2",
        last_activity := 0, current_track_title := none, is_playing := false }
      none 330 = TickAction.attemptJoin ∧
    (330 : Int) - 0 > 5 * 60 := by
  decide

/-- C3 (amended): a record whose age is at least 6 whole minutes (360 s,
i.e. whose truncated minute count exceeds 5) is never passed to
`join_voice_channel` by a reconciler tick, whatever the live state and
however its ids parse; ages in `(300 s, 360 s)` are NOT skipped. -/
theorem C3_stale_skip (rec : VoiceRec) (live : Option (Option Nat)) (now : Int)
    (hage : 360 ≤ now - rec.connected_at) :
    tick_action rec live now ≠ TickAction.attemptJoin := by
  have hdiv : (now - rec.connected_at).tdiv 60 > 5 := by
    rw [Int.tdiv_eq_ediv (by omega) (by norm_num)]
    omega
  unfold tick_action
  split
  · simp
  · split
    · simp
    · split
      · simp
      · split <;> simp_all

/-- Witness for C3's amended theorem: a 400-second-old record is
skipped. -/
theorem C3_stale_skip_witness :
    tick_action
      { guild_id := "1", connected_at := 0, channel_id := some "2",
        last_activity := 0, current_track_title := none, is_playing := false }
      none 400 ≠ TickAction.attemptJoin :=
  C3_stale_skip
    { guild_id := "1", connected_at := 0, channel_id := some "2",
      last_activity := 0, current_track_title := none, is_playing := false }
    none 400 (by decide)

/-- One reconciler record-handling step after the tick decision
(`process_voice_requests`): on `attemptJoin`, run `join_voice_channel`
(the live flag is whether a call exists); on terminal failure delete the
guild's record (`VoiceConnection::delete`); on success the loop only
logs.  Skips leave the store untouched. -/
def process_request (store : List VoiceRec) (rec : VoiceRec)
    (live : Option (Option Nat)) (succ : Nat → Bool) (now : Int) : List VoiceRec :=
  match tick_action rec live now with
  | .attemptJoin =>
    match rec.channel_id with
    | some cidStr =>
      let r := join_voice_channel live.isSome succ store rec.guild_id cidStr now
      if r.1 then r.2.2.2 else VoiceConnection.delete r.2.2.2 rec.guild_id
    | none => store
  | _ => store

/-- The join block of the `/play` handler (`src/commands/play.rs`): the
same retry loop, inlined; on success `create_or_update`; on exhaustion
the handler propagates the error to the caller and performs no further
database action — in particular no delete.  Result: (joined?, store). -/
def play_join_section (live : Bool) (succ : Nat → Bool) (store : List VoiceRec)
    (g c : String) (now : Int) : Bool × List VoiceRec :=
  if live then (true, store)
  else
    let r := joinGo succ store g c now 0 5
    (r.1, r.2.2.2)

theorem find_by_guild_id_delete (s : List VoiceRec) (g : String) :
    find_by_guild_id (VoiceConnection.delete s g) g = none := by
  unfold find_by_guild_id VoiceConnection.delete
  rw [List.filter_filter]
  have hnil : (s.filter fun r => decide (r.guild_id = g) && decide (¬r.guild_id = g)) = [] := by
    rw [List.filter_eq_nil_iff]
    intro a _
    by_cases h : a.guild_id = g <;> simp [h]
  rw [hnil]
  rfl

/-- C9 counterexample: after the `/play` handler's join loop exhausts all
attempts, the guild's `VoiceConnectionRecord` is still present — the
direct command path does not delete it, contradicting the claim that
both callers do. -/
theorem C9_counterexample :
    (play_join_section false (fun _ => false)
        [{ guild_id := "7", connected_at := 0, channel_id := some "8",
           last_activity := 0, current_track_title := none, is_playing := false }]
        "7" "8" 0).1 = false ∧
    find_by_guild_id
      (play_join_section false (fun _ => false)
        [{ guild_id := "7", connected_at := 0, channel_id := some "8",
           last_activity := 0, current_track_title := none, is_playing := false }]
        "7" "8" 0).2 "7"
      = some { guild_id := "7", connected_at := 0, channel_id := some "8",
               last_activity := 0, current_track_title := none, is_playing := false } := by
  decide

/-- C9 (amended): when every join attempt fails, the reconciler deletes
the guild's record after the terminal error, so the request is not
retried; the `/play` command path, by contrast, returns the terminal
error leaving the store exactly as it was (no delete). -/
theorem C9_terminal_failure (store : List VoiceRec) (rec : VoiceRec)
    (succ : Nat → Bool) (now : Int) (g c : String)
    (hfail : ∀ a, succ a = false)
    (hact : tick_action rec none now = TickAction.attemptJoin) :
    find_by_guild_id (process_request store rec none succ now) rec.guild_id = none ∧
    (play_join_section false succ store g c now).1 = false ∧
    (play_join_section false succ store g c now).2 = store := by
  refine ⟨?_, ?_, ?_⟩
  · unfold process_request
    rw [hact]
    cases hch : rec.channel_id with
    | none =>
      unfold tick_action at hact
      rw [hch] at hact
      exact absurd hact (by simp)
    | some cidStr =>
      have hj := joinGo_all_fail succ store rec.guild_id cidStr now hfail
      simp only [join_voice_channel, Option.isSome_none, Bool.false_eq_true, if_false, hj]
      exact find_by_guild_id_delete store rec.guild_id
  · simp [play_join_section, joinGo_all_fail succ store g c now hfail]
  · simp [play_join_section, joinGo_all_fail succ store g c now hfail]

/-- Witness for C9's amended theorem at a concrete record and store. -/
theorem C9_terminal_failure_witness :
    find_by_guild_id
      (process_request
        [{ guild_id := "7", connected_at := 0, channel_id := some "8",
           last_activity := 0, current_track_title := none, is_playing := false }]
        { guild_id := "7", connected_at := 0, channel_id := some "8",
          last_activity := 0, current_track_title := none, is_playing := false }
        none (fun _ => false) 0) "7" = none ∧
    (play_join_section false (fun _ => false)
        [{ guild_id := "7", connected_at := 0, channel_id := some "8",
           last_activity := 0, current_track_title := none, is_playing := false }]
        "g" "c" 0).1 = false ∧
    (play_join_section false (fun _ => false)
        [{ guild_id := "7", connected_at := 0, channel_id := some "8",
           last_activity := 0, current_track_title := none, is_playing := false }]
        "g" "c" 0).2
      = [{ guild_id := "7", connected_at := 0, channel_id := some "8",
           last_activity := 0, current_track_title := none, is_playing := false }] :=
  C9_terminal_failure
    [{ guild_id := "7", connected_at := 0, channel_id := some "8",
       last_activity := 0, current_track_title := none, is_playing := false }]
    { guild_id := "7", connected_at := 0, channel_id := some "8",
      last_activity := 0, current_track_title := none, is_playing := false }
    (fun _ => false) 0 "g" "c" (fun _ => rfl) (by decide)

/-! ### Track completion handling — `TrackEndNotifier::act`,
`src/commands/play.rs`.

State: the guild's durable queue, the live call (`some n` = a call whose
songbird queue holds `n` tracks once the ended track is gone), and the
voice-connection records.  The handler first advances the durable queue,
then inspects the live call's queue length. -/

structure TrackEndState where
  queue : List QRow
  live : Option Nat
  records : List VoiceRec

/-- Model of `TrackEndNotifier::act`: advance the queue; if a live call exists and
its queue is now empty, leave the channel (`manager.remove`) and mark the
record not playing with no title; if non-empty, look up the new
position-0 row and mark the record playing with its title (no record
update when the lookup finds nothing).  Returns the new state and
whether the channel was left. -/
def track_end_act (st : TrackEndState) (g : String) (now : Int) :
    TrackEndState × Bool :=
  let queue2 := advance_queue st.queue g
  match st.live with
  | none => ({ st with queue := queue2 }, false)
  | some n =>
    if n = 0 then
      ({ queue := queue2, live := none,
         records := update_playing_status st.records g false none now }, true)
    else
      match get_current_track queue2 g with
      | some next =>
        ({ queue := queue2, live := st.live,
           records := update_playing_status st.records g true next.title now }, false)
      | none => ({ st with queue := queue2 }, false)

theorem update_playing_status_mem (s : List VoiceRec) (g : String) (p : Bool)
    (t : Option String) (now : Int) :
    ∀ r ∈ update_playing_status s g p t now, r.guild_id = g →
      r.is_playing = p ∧ r.current_track_title = t := by
  intro r hr hg
  unfold update_playing_status at hr
  obtain ⟨r0, hr0, heq⟩ := List.mem_map.mp hr
  by_cases h0 : r0.guild_id = g
  · rw [if_pos h0] at heq
    rw [← heq]
    exact ⟨rfl, rfl⟩
  · rw [if_neg h0] at heq
    rw [← heq] at hg
    exact absurd hg h0

theorem get_current_track_of_inv (q : List QRow) (g : String) (hinv : QInv q g)
    (hne : (guildRows q g).length ≠ 0) :
    ∃ next, get_current_track q g = some next ∧ next.position = 0 ∧
      next.guild_id = g := by
  have h0 : (0 : Int) ∈ (guildRows q g).map QRow.position := by
    rw [hinv]
    cases hn : (guildRows q g).length with
    | zero => exact absurd hn hne
    | succ k =>
      rw [rangeInt_succ_eq_map]
      exact List.mem_cons_self _ _
  obtain ⟨r, hrmem, hrpos⟩ := List.mem_map.mp h0
  have hrg : r.guild_id = g := by
    have := List.of_mem_filter hrmem
    simpa using this
  have hmem2 : r ∈ q.filter (fun r => r.guild_id = g ∧ r.position = 0) := by
    rw [List.mem_filter]
    refine ⟨List.mem_of_mem_filter hrmem, ?_⟩
    simp [hrg, hrpos]
  cases hq : q.filter (fun r => r.guild_id = g ∧ r.position = 0) with
  | nil =>
    rw [hq] at hmem2
    exact absurd hmem2 (List.not_mem_nil r)
  | cons a tl =>
    have hamem : a ∈ q.filter (fun r => r.guild_id = g ∧ r.position = 0) := by
      rw [hq]
      exact List.mem_cons_self a tl
    have hprop := (List.mem_filter.mp hamem).2
    refine ⟨a, ?_, ?_, ?_⟩
    · unfold get_current_track
      rw [hq]
      rfl
    · simpa using (of_decide_eq_true hprop).2
    · simpa using (of_decide_eq_true hprop).1

/-- C8: on a track-end signal the durable queue is advanced first; then,
with a live call whose queue length matches the advanced durable queue:
if that length is zero the handler leaves the channel and sets the
guild's records to not-playing with no title; if non-zero it keeps the
call and sets the guild's records to playing with the title of the new
position-0 entry. -/
theorem C8_track_end (st : TrackEndState) (g : String) (now : Int) (n : Nat)
    (hinv : QInv st.queue g)
    (hlive : st.live = some n)
    (hcouple : n = (guildRows (advance_queue st.queue g) g).length) :
    (track_end_act st g now).1.queue = advance_queue st.queue g ∧
    (n = 0 →
      (track_end_act st g now).2 = true ∧
      (track_end_act st g now).1.live = none ∧
      ∀ r ∈ (track_end_act st g now).1.records, r.guild_id = g →
        r.is_playing = false ∧ r.current_track_title = none) ∧
    (n ≠ 0 →
      ∃ next, get_current_track (advance_queue st.queue g) g = some next ∧
        next.position = 0 ∧
        (track_end_act st g now).2 = false ∧
        ∀ r ∈ (track_end_act st g now).1.records, r.guild_id = g →
          r.is_playing = true ∧ r.current_track_title = next.title) := by
  by_cases hn : n = 0
  · subst hn
    simp only [track_end_act, hlive, if_pos rfl]
    refine ⟨rfl, fun _ => ⟨rfl, rfl, ?_⟩, fun hcontra => absurd rfl hcontra⟩
    exact update_playing_status_mem st.records g false none now
  · have hinv2 := QInv_advance_same st.queue g hinv
    obtain ⟨next, hnext, hpos0, hguild⟩ :=
      get_current_track_of_inv (advance_queue st.queue g) g hinv2
        (fun hc => hn (hcouple.trans hc))
    simp only [track_end_act, hlive, if_neg hn, hnext]
    refine ⟨?_, fun hc => absurd hc hn, fun _ => ⟨next, ?_, ?_, ?_, ?_⟩⟩
    · trivial
    · trivial
    · exact hpos0
    · trivial
    · exact update_playing_status_mem st.records g true next.title now

/-- Witness for C8: a one-track queue whose track ends; the live queue is
then empty, the handler leaves and clears the playing flag. -/
theorem C8_track_end_witness :
    (track_end_act
        { queue := [{ guild_id := "g", url := "u", title := some "T",
                      duration := none, position := 0, added_by := "a" }],
          live := some 0,
          records := [{ guild_id := "g", connected_at := 0, channel_id := some "8",
                        last_activity := 0, current_track_title := some "T",
                        is_playing := true }] } "g" 7).1.queue
      = advance_queue
          [{ guild_id := "g", url := "u", title := some "T",
             duration := none, position := 0, added_by := "a" }] "g" ∧
    ((0 : Nat) = 0 →
      (track_end_act
        { queue := [{ guild_id := "g", url := "u", title := some "T",
                      duration := none, position := 0, added_by := "a" }],
          live := some 0,
          records := [{ guild_id := "g", connected_at := 0, channel_id := some "8",
                        last_activity := 0, current_track_title := some "T",
                        is_playing := true }] } "g" 7).2 = true ∧
      (track_end_act
        { queue := [{ guild_id := "g", url := "u", title := some "T",
                      duration := none, position := 0, added_by := "a" }],
          live := some 0,
          records := [{ guild_id := "g", connected_at := 0, channel_id := some "8",
                        last_activity := 0, current_track_title := some "T",
                        is_playing := true }] } "g" 7).1.live = none ∧
      ∀ r ∈ (track_end_act
        { queue := [{ guild_id := "g", url := "u", title := some "T",
                      duration := none, position := 0, added_by := "a" }],
          live := some 0,
          records := [{ guild_id := "g", connected_at := 0, channel_id := some "8",
                        last_activity := 0, current_track_title := some "T",
                        is_playing := true }] } "g" 7).1.records, r.guild_id = "g" →
        r.is_playing = false ∧ r.current_track_title = none) ∧
    ((0 : Nat) ≠ 0 →
      ∃ next, get_current_track
          (advance_queue
            [{ guild_id := "g", url := "u", title := some "T",
               duration := none, position := 0, added_by := "a" }] "g") "g"
          = some next ∧
        next.position = 0 ∧
        (track_end_act
          { queue := [{ guild_id := "g", url := "u", title := some "T",
                        duration := none, position := 0, added_by := "a" }],
            live := some 0,
            records := [{ guild_id := "g", connected_at := 0, channel_id := some "8",
                          last_activity := 0, current_track_title := some "T",
                          is_playing := true }] } "g" 7).2 = false ∧
        ∀ r ∈ (track_end_act
          { queue := [{ guild_id := "g", url := "u", title := some "T",
                        duration := none, position := 0, added_by := "a" }],
            live := some 0,
            records := [{ guild_id := "g", connected_at := 0, channel_id := some "8",
                          last_activity := 0, current_track_title := some "T",
                          is_playing := true }] } "g" 7).1.records, r.guild_id = "g" →
          r.is_playing = true ∧ r.current_track_title = next.title) :=
  C8_track_end
    { queue := [{ guild_id := "g", url := "u", title := some "T",
                  duration := none, position := 0, added_by := "a" }],
      live := some 0,
      records := [{ guild_id := "g", connected_at := 0, channel_id := some "8",
                    last_activity := 0, current_track_title := some "T",
                    is_playing := true }] } "g" 7 0 rfl rfl (by decide)

end Lyre
